import Mathlib

/-!
Verification of the stock quote service and its command-line client.

The service (`server.py`) normalizes a ticker symbol by appending the
Toronto market suffix ".TO" when absent, queries an external provider
(yfinance) and re-exposes a fixed set of optional fields; any provider
failure becomes an HTTP 500 error.  The client (`client.py`) either
watches a list of symbols (fan-out per cycle, table rendering, optional
cumulative CSV export) or analyzes a single symbol (derived
price-vs-50-day-average metric).

Python floats are embedded as rationals (`ℚ`), Python `None` as
`Option.none`, and Python dictionaries coming over the wire as
structures of optional fields.  Exceptions are embedded with `Except`.
-/

attribute [local semireducible] Rat.add Rat.mul Rat.sub Rat.inv Rat.ofScientific

namespace StockApp

/-- Python truthiness of an optional float: `None` and `0` are falsy,
every other float is truthy. -/
def pyTruthy : Option ℚ → Bool
  | none => false
  | some x => x != 0

/-- Python truthiness of an optional integer: `None` and `0` are falsy. -/
def pyTruthyInt : Option ℤ → Bool
  | none => false
  | some x => x != 0

/-- Fields of the dictionary `yf.Ticker(symbol).info` that
`server.get_stock_data` reads.  Every field is optional: the provider
may omit any of them (`info.get` then yields `None`). -/
structure ProviderInfo where
  currentPrice : Option ℚ
  volume : Option ℤ
  marketCap : Option ℚ
  fiftyDayAverage : Option ℚ
  longName : Option String
  currency : Option String
deriving DecidableEq

/-- The external provider: a lookup from the (already suffixed) symbol to
its info dictionary, or a failure carrying the exception text `str(e)`. -/
def Provider : Type := String → Except String ProviderInfo

/-- The normalized `data` dictionary built by `server.get_stock_data`
(lines 42-49 of server.py).  `currency` defaults to "CAD" when the
provider omits it, so it is always present. -/
structure QuoteData where
  current_price : Option ℚ
  volume : Option ℤ
  market_cap : Option ℚ
  fifty_day_average : Option ℚ
  name : Option String
  currency : String
deriving DecidableEq

/-- Request body of POST /stock (`class StockRequest(BaseModel)`). -/
structure StockRequest where
  symbol : String
deriving DecidableEq

/-- Response body of POST /stock (`class StockResponse(BaseModel)`). -/
structure StockResponse where
  symbol : String
  data : QuoteData
deriving DecidableEq

/-- A raised `fastapi.HTTPException`: status code and detail string. -/
structure HTTPErr where
  status_code : ℕ
  detail : String
deriving DecidableEq

/-- Character for a decimal digit (`0` ↦ `'0'`, …, `9` ↦ `'9'`). -/
def digitChar (n : ℕ) : Char := Char.ofNat (48 + n % 10)

/-- Decimal digits of `n`, most significant first, `[]` for `0`.  The
first argument is recursion fuel; `natDigits` supplies enough. -/
def natDigitsAux : ℕ → ℕ → List Char
  | 0, _ => []
  | _ + 1, 0 => []
  | fuel + 1, n + 1 => natDigitsAux fuel ((n + 1) / 10) ++ [digitChar ((n + 1) % 10)]

/-- Decimal representation of a natural number as a digit list. -/
def natDigits (n : ℕ) : List Char := if n = 0 then ['0'] else natDigitsAux n n

/-- Decimal representation of a natural number as a string. -/
def natStr (n : ℕ) : String := String.mk (natDigits n)

/-- Python `str(e)` of an `HTTPException` (its `__str__` yields
`f"{status_code}: {detail}"`). -/
def strOfHTTPErr (e : HTTPErr) : String := natStr e.status_code ++ ": " ++ e.detail

/-- Python `s.endswith(t)`, via character lists. -/
def strEndsWith (s t : String) : Bool := List.isPrefixOf t.data.reverse s.data.reverse

/-- The suffix normalization at the top of `server.get_stock_data`
(lines 35-37): append ".TO" when the symbol does not already end in it. -/
def normalizeSymbol (symbol : String) : String :=
  if strEndsWith symbol ".TO" then symbol else symbol ++ ".TO"

/-- Shallow embedding of `server.get_stock_data` (lines 33-52): suffix
the symbol, query the provider once, map the fields; any provider
exception becomes `HTTPException(500, "Error fetching stock data: " + str(e))`. -/
def get_stock_data (provider : Provider) (symbol : String) : Except HTTPErr QuoteData :=
  match provider (normalizeSymbol symbol) with
  | .ok info => .ok
      { current_price := info.currentPrice
        volume := info.volume
        market_cap := info.marketCap
        fifty_day_average := info.fiftyDayAverage
        name := info.longName
        currency := info.currency.getD "CAD" }
  | .error e => .error ⟨500, "Error fetching stock data: " ++ e⟩

/-- Shallow embedding of the POST /stock handler `server.get_stock_info`
(lines 58-65): on success echo the caller's original symbol; a raised
`HTTPException` is caught by the broad `except` and re-raised as
`HTTPException(500, str(e))`. -/
def get_stock_info (provider : Provider) (request : StockRequest) : Except HTTPErr StockResponse :=
  match get_stock_data provider request.symbol with
  | .ok data => .ok ⟨request.symbol, data⟩
  | .error e => .error ⟨500, strOfHTTPErr e⟩

/-- Pydantic validation of the request body for `StockRequest`: the
`symbol` field is required and must be a string; the model declares no
other constraint, so every string — the empty string included — is
accepted.  The argument is the `symbol` field of the body (`none` when
the field is missing). -/
def validateStockRequest : Option String → Option StockRequest
  | some s => some ⟨s⟩
  | none => none

/-- The full POST /stock request path: body validation (a 422 from
FastAPI when it fails), then the handler. -/
def handleStockPost (provider : Provider) (body : Option String) : Except HTTPErr StockResponse :=
  match validateStockRequest body with
  | some req => get_stock_info provider req
  | none => .error ⟨422, "Field required"⟩

instance {ε α : Type} [DecidableEq ε] [DecidableEq α] : DecidableEq (Except ε α)
  | .ok a, .ok b => if h : a = b then .isTrue (by rw [h]) else .isFalse (by simp [h])
  | .ok _, .error _ => .isFalse (by simp)
  | .error _, .ok _ => .isFalse (by simp)
  | .error e, .error f => if h : e = f then .isTrue (by rw [h]) else .isFalse (by simp [h])

/-- A provider that knows every symbol but reports no fields. -/
def trivialProvider : Provider := fun _ => .ok ⟨none, none, none, none, none, none⟩

/-- A provider whose lookups always fail with the exception text "timeout". -/
def failingProvider : Provider := fun _ => .error "timeout"

/-- The quote data `trivialProvider` leads to (all fields absent,
currency defaulted to "CAD"). -/
def emptyQuote : QuoteData := ⟨none, none, none, none, none, "CAD"⟩

/-- Whether `needle` occurs as a contiguous substring of `hay`. -/
def containsSub (needle : List Char) : List Char → Bool
  | [] => List.isPrefixOf needle []
  | c :: rest => List.isPrefixOf needle (c :: rest) || containsSub needle rest

/-- Chunks of three characters taken from the front; the input is a
reversed digit list, so these are the thousands groups, least
significant group first.  Every chunk has length three except possibly
the final one, which has length one to three. -/
def groupChunks : List Char → List (List Char)
  | [] => []
  | [a] => [[a]]
  | [a, b] => [[a, b]]
  | a :: b :: c :: rest => [a, b, c] :: groupChunks rest

/-- Interleave a comma between character groups. -/
def joinComma : List (List Char) → List Char
  | [] => []
  | [g] => g
  | g :: g2 :: gs => g ++ ',' :: joinComma (g2 :: gs)

/-- Thousands grouping of a digit list (most significant digit first),
as produced by Python's `,` format flag: groups of three from the
right, separated by commas. -/
def groupDigits (ds : List Char) : List Char :=
  joinComma (((groupChunks ds.reverse).reverse).map List.reverse)

/-- Split a character list at every comma (inverse of `joinComma` for
comma-free nonempty groups). -/
def splitComma : List Char → List (List Char)
  | [] => [[]]
  | c :: rest =>
    if c = ',' then [] :: splitComma rest
    else
      match splitComma rest with
      | [] => [[c]]
      | g :: gs => (c :: g) :: gs

/-- Round a nonnegative rational to the nearest natural number, ties to
even — the rounding Python's fixed-point float formatting applies. -/
def roundHalfEven (x : ℚ) : ℕ :=
  let n := x.num.toNat
  let d := x.den
  let q := n / d
  let r := n % d
  if 2 * r < d then q
  else if d < 2 * r then q + 1
  else if q % 2 = 0 then q else q + 1

/-- Python `f"{x:.2f}"`: sign, integer part, point, exactly two decimal
digits, rounded half-to-even. -/
def fixed2 (x : ℚ) : String :=
  let cents := roundHalfEven (|x| * 100)
  (if x < 0 then "-" else "")
    ++ String.mk (natDigits (cents / 100))
    ++ "." ++ String.mk [digitChar (cents % 100 / 10), digitChar (cents % 100 % 10)]

/-- Python `f"{x:,.2f}"`: like `fixed2` with the integer part
thousands-grouped. -/
def commaFixed2 (x : ℚ) : String :=
  let cents := roundHalfEven (|x| * 100)
  (if x < 0 then "-" else "")
    ++ String.mk (groupDigits (natDigits (cents / 100)))
    ++ "." ++ String.mk [digitChar (cents % 100 / 10), digitChar (cents % 100 % 10)]

/-- Python `f"{n:,}"` for an integer: thousands-grouped decimal. -/
def commaInt (n : ℤ) : String :=
  (if n < 0 then "-" else "") ++ String.mk (groupDigits (natDigits n.natAbs))

/-- Shallow embedding of `client.format_currency` (lines 38-39):
`f"${value:,.2f}" if value else "N/A"` — `None` and `0` both render as
"N/A" under Python truthiness. -/
def format_currency (value : Option ℚ) : String :=
  if pyTruthy value then "$" ++ commaFixed2 (value.getD 0) else "N/A"

/-- The volume cell expression of `client.create_stock_table` (line 56):
`f"{v:,}" if v else "N/A"`. -/
def volumeCell (v : Option ℤ) : String :=
  if pyTruthyInt v then commaInt (v.getD 0) else "N/A"

/-- One rendered row of the watch table. -/
structure TableRow where
  symbol : String
  current_price : String
  volume : String
  market_cap : String
  fifty_day_avg : String
deriving DecidableEq

/-- Shallow embedding of `client.create_stock_table` (lines 41-61): one
row per response, in the order of the input list. -/
def create_stock_table (data : List StockResponse) : List TableRow :=
  data.map fun stock =>
    { symbol := stock.symbol
      current_price := format_currency stock.data.current_price
      volume := volumeCell stock.data.volume
      market_cap := format_currency stock.data.market_cap
      fifty_day_avg := format_currency stock.data.fifty_day_average }

/-- Event-loop simulation of `asyncio.gather(*tasks)`: one result slot
per task, written when the task completes.  `sched` is the completion
order (a list of task indices); the final slot list is read in task
order, which is how `gather` assembles its return value. -/
def gatherSim {α : Type} (tasks : List α) (sched : List ℕ) : List (Option α) :=
  sched.foldl (fun slots i => slots.set i tasks[i]?) (List.replicate tasks.length none)

/-- Shallow embedding of `client.get_multiple_stocks` (lines 34-36):
one task per symbol, in symbol order, gathered under completion
schedule `sched`.  `serv` is the per-symbol response of the service. -/
def get_multiple_stocks (serv : String → StockResponse) (symbols : List String)
    (sched : List ℕ) : List (Option StockResponse) :=
  gatherSim (symbols.map serv) sched

/-- Shallow embedding of the metric table of `client.analyze_stock`
(lines 132-162).  The keys `current_price` and `fifty_day_average` are
always present in a service response (the server emits all six), so
`data.get(..., 0)` returns the stored value, possibly `None`; the
derived row is guarded by Python truthiness of both values. -/
def analyze_table (data : QuoteData) : List (String × String) :=
  let current_price := data.current_price
  let fifty_day_avg := data.fifty_day_average
  (if pyTruthy current_price && pyTruthy fifty_day_avg then
    let price_diff := ((current_price.getD 0 - fifty_day_avg.getD 0) / fifty_day_avg.getD 0) * 100
    [("Price vs 50-day Average",
      (if 0 < price_diff then "🔺" else "🔻") ++ " " ++ fixed2 |price_diff| ++ "%")]
  else [])
  ++ [("Current Price", format_currency current_price),
      ("50 Day Average", format_currency fifty_day_avg),
      ("Market Cap", format_currency data.market_cap)]

/-- What one run of the analyze command prints. -/
inductive AnalyzeOutput
  | report (header : String) (rows : List (String × String))
  | failure (message : String)
deriving DecidableEq

/-- Shallow embedding of `client.analyze` / `analyze_stock` (lines
118-167): fetch the one symbol, render the metric table; any exception
is caught and printed as `f"Error analyzing {symbol}: {str(e)}"`.  The
`days` option is bound by the command but never read in its body. -/
def analyze_run (serv : String → Except String StockResponse) (symbol : String)
    (days : ℕ) : AnalyzeOutput :=
  match serv symbol with
  | .ok resp => .report ("Analysis for " ++ symbol) (analyze_table resp.data)
  | .error e => .failure ("Error analyzing " ++ symbol ++ ": " ++ e)

/-- The quote requests one analyze invocation issues to the service:
exactly one, for the given symbol; `days` plays no part. -/
def analyze_requests (symbol : String) (days : ℕ) : List String := [symbol]

/-- Observable resource events of the client flows. -/
inductive Ev
  | sessionOpen
  | sessionClose
  | fetch (symbol : String)
  | render
  | exportCsv
  | sleep
  | printError
deriving DecidableEq

/-- Events of one cycle of `client.watch_stocks` (lines 73-109): the
`async with StockClient()` scope sits inside the `while True` loop, so
each cycle opens a fresh session and closes it before the sleep. -/
def watchCycleEvents (symbols : List String) (useOutput : Bool) : List Ev :=
  [Ev.sessionOpen] ++ symbols.map Ev.fetch ++ [Ev.render]
    ++ (if useOutput then [Ev.exportCsv] else []) ++ [Ev.sessionClose, Ev.sleep]

/-- Events of `k` cycles of the watch loop. -/
def watchEvents (symbols : List String) (useOutput : Bool) (k : ℕ) : List Ev :=
  (List.range k).flatMap fun _ => watchCycleEvents symbols useOutput

/-- Events of one analyze invocation (lines 124-169): a single session
around the fetch, closed by `__aexit__` on both the success and the
caught-exception path. -/
def analyzeEvents (symbol : String) (ok : Bool) : List Ev :=
  [Ev.sessionOpen, Ev.fetch symbol] ++ (if ok then [Ev.render] else [Ev.printError])
    ++ [Ev.sessionClose]

/-- One row of the CSV export (columns of lines 86-93 of client.py). -/
structure CsvRow where
  timestamp : ℚ
  symbol : String
  price : Option ℚ
  volume : Option ℤ
  market_cap : Option ℚ
  fifty_day_avg : Option ℚ
deriving DecidableEq

/-- The rows one cycle appends (lines 86-103): the scalar
`datetime.now()` timestamp broadcast over one row per symbol, in symbol
order. -/
def cycleRows (t : ℚ) (symbols : List String) (quote : String → QuoteData) : List CsvRow :=
  symbols.map fun s =>
    { timestamp := t
      symbol := s
      price := (quote s).current_price
      volume := (quote s).volume
      market_cap := (quote s).market_cap
      fifty_day_avg := (quote s).fifty_day_average }

/-- Wall-clock time at which cycle `i` reads `datetime.now()`: each
cycle advances the clock by that cycle's processing delay and then the
`asyncio.sleep(interval)`. -/
def cycleTime (t0 interval : ℚ) (delay : ℕ → ℚ) : ℕ → ℚ
  | 0 => t0
  | i + 1 => cycleTime t0 interval delay i + delay i + interval

/-- Contents of the CSV file after `k` cycles: `pd.concat(df_list)`
rewritten in full each cycle (lines 102-106), i.e. the concatenation of
every cycle's block so far, in cycle order. -/
def watchCsvFile (t0 interval : ℚ) (delay : ℕ → ℚ) (symbols : List String)
    (quoteAt : ℕ → String → QuoteData) (k : ℕ) : List CsvRow :=
  (List.range k).flatMap fun i => cycleRows (cycleTime t0 interval delay i) symbols (quoteAt i)

/-- Decidable check that a digit list is nonempty and all digits. -/
def isDigitList (l : List Char) : Bool := !l.isEmpty && l.all Char.isDigit

/-- Decidable check for the pattern `d{1,3}(,d{3})*`: a thousands-grouped
decimal integer. -/
def isGroupedInt (l : List Char) : Bool :=
  match splitComma l with
  | [] => false
  | g :: gs =>
    isDigitList g && decide (g.length ≤ 3)
      && gs.all fun h => decide (h.length = 3) && h.all Char.isDigit

/-- Decidable check for the currency cell pattern
`$<grouped-int>.<2 decimals>`. -/
def isCurrencyPattern (s : String) : Bool :=
  match s.data with
  | c :: rest =>
    c == '$' &&
      (match rest.reverse with
       | f2 :: f1 :: p :: ipRev =>
         p == '.' && f1.isDigit && f2.isDigit && isGroupedInt ipRev.reverse
       | _ => false)
  | _ => false

/-- A service echoing each symbol with an empty quote, as the embedded
server over `trivialProvider` would. -/
def echoService : String → StockResponse := fun s => ⟨s, emptyQuote⟩

/-- The quote of the spec's analyze scenario: current price 110,
50-day average 100. -/
def quote110 : QuoteData := ⟨some 110, none, none, some 100, none, "CAD"⟩

/-- A quote whose current price is present but zero (a known value that
Python truthiness treats like an unknown). -/
def quoteZeroPrice : QuoteData := ⟨some 0, none, none, some 100, none, "CAD"⟩

/-- A quote with a negative 50-day average: current price 50 exceeds
the average, yet the percentage deviation is negative. -/
def quoteNegAvg : QuoteData := ⟨some 50, none, none, some (-100), none, "CAD"⟩

end StockApp

namespace StockApp

theorem containsSub_iff (needle : List Char) :
    ∀ hay : List Char, containsSub needle hay = true ↔ needle <:+: hay := by
  intro hay
  induction hay with
  | nil =>
    simp [containsSub, List.isPrefixOf_iff_prefix]
  | cons c rest ih =>
    simp [containsSub, List.isPrefixOf_iff_prefix, ih, List.infix_cons_iff]

theorem pyTruthy_getD_ne_zero {v : Option ℚ} (h : pyTruthy v = true) : v.getD 0 ≠ 0 := by
  cases v with
  | none => simp [pyTruthy] at h
  | some x => simpa [pyTruthy, bne_iff_ne] using h

theorem pyTruthy_some_iff (x : ℚ) : pyTruthy (some x) = true ↔ x ≠ 0 := by
  simp [pyTruthy, bne_iff_ne]

theorem price_diff_pos_iff (cp fda : ℚ) (h : 0 < fda) :
    (0 < (cp - fda) / fda * 100) ↔ fda < cp := by
  constructor
  · intro hh
    by_contra hle
    push_neg at hle
    have h1 : (cp - fda) / fda ≤ 0 :=
      div_nonpos_iff.mpr (Or.inr ⟨by linarith, le_of_lt h⟩)
    nlinarith
  · intro hh
    have h1 : 0 < (cp - fda) / fda := div_pos (by linarith) h
    nlinarith

/-- C1: for every symbol S accepted by /stock, the provider lookup uses
S++".TO" when S does not already end in ".TO" and S unchanged when it
does (no double suffix); the lookup depends on the provider only at
that suffixed symbol; and a successful response echoes the caller's
original S, never the suffixed form. -/
theorem stock_suffix_internal_symbol_echoed (provider p2 : Provider) (s : String) :
    (strEndsWith s ".TO" = false → normalizeSymbol s = s ++ ".TO") ∧
    (strEndsWith s ".TO" = true → normalizeSymbol s = s) ∧
    (provider (normalizeSymbol s) = p2 (normalizeSymbol s) →
      get_stock_data provider s = get_stock_data p2 s) ∧
    (∀ r, get_stock_info provider ⟨s⟩ = Except.ok r → r.symbol = s) := by
  refine ⟨fun h => ?_, fun h => ?_, fun h => ?_, fun r hr => ?_⟩
  · simp [normalizeSymbol, h]
  · simp [normalizeSymbol, h]
  · simp [get_stock_data, h]
  · cases hdata : get_stock_data provider s with
    | ok d =>
      simp only [get_stock_info, hdata] at hr
      injection hr with h2
      rw [← h2]
    | error e =>
      simp only [get_stock_info, hdata] at hr
      cases hr

/-- C1 witness: "SHOP" is looked up as "SHOP.TO", "RY.TO" stays
unchanged, and the response symbol for "SHOP" is "SHOP". -/
theorem stock_suffix_internal_symbol_echoed_witness :
    normalizeSymbol "SHOP" = "SHOP.TO" ∧ normalizeSymbol "RY.TO" = "RY.TO" ∧
    (⟨"SHOP", emptyQuote⟩ : StockResponse).symbol = "SHOP" :=
  ⟨(stock_suffix_internal_symbol_echoed trivialProvider trivialProvider "SHOP").1 (by decide),
   (stock_suffix_internal_symbol_echoed trivialProvider trivialProvider "RY.TO").2.1 (by decide),
   (stock_suffix_internal_symbol_echoed trivialProvider trivialProvider "SHOP").2.2.2
     ⟨"SHOP", emptyQuote⟩ (by decide)⟩

/-- C2 counterexample: a provider failure whose exception text is
"timeout" yields a 500 whose detail does not mention the attempted
suffixed symbol "SHOP.TO" anywhere — the detail carries only the
cause, the symbol goes to the server log. -/
theorem provider_failure_detail_counterexample :
    get_stock_info failingProvider ⟨"SHOP"⟩ =
      .error ⟨500, "500: Error fetching stock data: timeout"⟩ ∧
    containsSub "SHOP.TO".data "500: Error fetching stock data: timeout".data = false :=
  ⟨by decide, by decide⟩

/-- C2 amended: every provider-lookup failure surfaces as an HTTP 500 —
never a success response — whose detail is the human-readable cause
prefixed "Error fetching stock data: " (re-wrapped once with the status
code by the outer handler); the attempted suffixed symbol is only
logged, not guaranteed to appear in the detail. -/
theorem provider_failure_yields_500 (provider : Provider) (s cause : String)
    (h : provider (normalizeSymbol s) = .error cause) :
    get_stock_info provider ⟨s⟩ =
      .error ⟨500, "500: Error fetching stock data: " ++ cause⟩ := by
  have key : natStr 500 ++ ": " ++ ("Error fetching stock data: " ++ cause)
      = "500: Error fetching stock data: " ++ cause := by
    rw [← String.append_assoc]
    congr 1
  simp only [get_stock_info, get_stock_data, h, strOfHTTPErr]
  rw [key]

/-- C2 witness: the amended statement at the failing provider and the
symbol "SHOP". -/
theorem provider_failure_yields_500_witness :
    get_stock_info failingProvider ⟨"SHOP"⟩ =
      .error ⟨500, "500: Error fetching stock data: timeout"⟩ :=
  provider_failure_yields_500 failingProvider "SHOP" "timeout" rfl

/-- C8 counterexample: the service does not require a non-empty symbol —
pydantic's bare `symbol: str` accepts the empty string, which is then
suffixed to ".TO" and sent to the provider. -/
theorem empty_symbol_accepted_counterexample :
    validateStockRequest (some "") = some ⟨""⟩ ∧
    normalizeSymbol "" = ".TO" ∧
    handleStockPost trivialProvider (some "") = .ok ⟨"", emptyQuote⟩ :=
  ⟨rfl, by decide, by decide⟩

/-- C8 amended: the service requires only that the symbol field be
present with a string value; it performs no further validation — any
string, the empty string included, goes straight to the provider
lookup. -/
theorem symbol_validation_presence_only (s : String) (provider : Provider) :
    validateStockRequest (some s) = some ⟨s⟩ ∧
    validateStockRequest none = none ∧
    handleStockPost provider (some s) = get_stock_info provider ⟨s⟩ :=
  ⟨rfl, rfl, rfl⟩

theorem foldl_set_getElem {α : Type} (tasks : List α) (sched : List ℕ) :
    ∀ (init : List (Option α)), init.length = tasks.length → ∀ j : ℕ,
    (sched.foldl (fun slots i => slots.set i tasks[i]?) init)[j]? =
      if j ∈ sched ∧ j < tasks.length then some tasks[j]? else init[j]? := by
  induction sched with
  | nil => intro init hlen j; simp
  | cons i rest ih =>
    intro init hlen j
    rw [List.foldl_cons, ih (init.set i tasks[i]?) (by simp [hlen])]
    by_cases hjn : j < tasks.length
    · by_cases hjr : j ∈ rest
      · simp [hjr, hjn]
      · by_cases hij : i = j
        · subst hij
          simp [hjr, hjn, List.mem_cons, List.getElem?_set, hlen]
        · have hji : ¬ j = i := fun hh => hij hh.symm
          simp [hjr, hjn, List.mem_cons, hij, hji, List.getElem?_set]
    · have h1 : init.length ≤ j := by omega
      have h2 : (init.set i tasks[i]?).length ≤ j := by simpa using h1
      simp [hjn, List.getElem?_eq_none h1, List.getElem?_eq_none h2]

/-- C3: whatever order the per-symbol requests complete in (any
completion schedule covering every task), the joined result list is in
the original request order, and so are the rendered table rows. -/
theorem fan_out_join_preserves_request_order
    (resp : String → StockResponse) (symbols : List String) (sched : List ℕ)
    (hcover : ∀ j, j < symbols.length → j ∈ sched) :
    get_multiple_stocks resp symbols sched = (symbols.map resp).map some ∧
    (create_stock_table (symbols.map resp)).map TableRow.symbol
      = symbols.map fun s => (resp s).symbol := by
  constructor
  · unfold get_multiple_stocks gatherSim
    apply List.ext_getElem?
    intro j
    rw [foldl_set_getElem (symbols.map resp) sched _ (by simp) j]
    by_cases hj : j < symbols.length
    · have hjs : j ∈ sched := hcover j hj
      simp [hjs, hj, List.getElem?_eq_getElem hj]
    · have hle : symbols.length ≤ j := Nat.le_of_not_lt hj
      have e1 : (List.replicate symbols.length (none : Option StockResponse))[j]? = none :=
        List.getElem?_eq_none (by simpa using hle)
      have e3 : symbols[j]? = none := List.getElem?_eq_none hle
      simp [hj, e1, e3]
  · simp [create_stock_table, List.map_map, Function.comp]

/-- C3 witness: three symbols completing in the order third, first,
second still produce results and rows in request order A, B, C. -/
theorem fan_out_join_preserves_request_order_witness :
    get_multiple_stocks echoService ["A", "B", "C"] [2, 0, 1]
      = (["A", "B", "C"].map echoService).map some ∧
    (create_stock_table (["A", "B", "C"].map echoService)).map TableRow.symbol
      = ["A", "B", "C"] := by
  have h := fan_out_join_preserves_request_order echoService ["A", "B", "C"] [2, 0, 1] (by decide)
  exact ⟨h.1, by rw [h.2]; rfl⟩

theorem cycle_count_open (symbols : List String) (useOutput : Bool) :
    (watchCycleEvents symbols useOutput).count Ev.sessionOpen = 1 := by
  have h0 : (symbols.map Ev.fetch).count Ev.sessionOpen = 0 := by
    rw [List.count_eq_zero]
    simp
  cases useOutput <;>
    simp [watchCycleEvents, List.count_append, h0, List.count_cons, List.count_nil]

theorem cycle_count_close (symbols : List String) (useOutput : Bool) :
    (watchCycleEvents symbols useOutput).count Ev.sessionClose = 1 := by
  have h0 : (symbols.map Ev.fetch).count Ev.sessionClose = 0 := by
    rw [List.count_eq_zero]
    simp
  cases useOutput <;>
    simp [watchCycleEvents, List.count_append, h0, List.count_cons, List.count_nil]

/-- C6 counterexample: a two-cycle watch of one symbol opens two
sessions, not one — the `async with` scope sits inside the loop, so a
fresh session is opened every cycle. -/
theorem session_per_invocation_counterexample :
    (watchEvents ["X"] false 2).count Ev.sessionOpen = 2 ∧ 2 ≠ 1 :=
  ⟨by decide, by decide⟩

/-- C6 amended: the watch flow opens exactly one session per cycle and
closes it before that cycle's sleep (k cycles make k opens and k
closes); the analyze flow opens exactly one session per invocation,
closed last on both the success and the error path. -/
theorem session_scoped_per_cycle (symbols : List String) (useOutput : Bool) (k : ℕ)
    (symbol : String) (ok : Bool) :
    (watchEvents symbols useOutput k).count Ev.sessionOpen = k ∧
    (watchEvents symbols useOutput k).count Ev.sessionClose = k ∧
    (analyzeEvents symbol ok).count Ev.sessionOpen = 1 ∧
    (analyzeEvents symbol ok).count Ev.sessionClose = 1 ∧
    (analyzeEvents symbol ok).getLast? = some Ev.sessionClose := by
  refine ⟨?_, ?_, ?_, ?_, ?_⟩
  · induction k with
    | zero => rfl
    | succ n ihn =>
      rw [watchEvents, List.range_succ, List.flatMap_append, List.count_append]
      rw [show (List.range n).flatMap (fun _ => watchCycleEvents symbols useOutput)
          = watchEvents symbols useOutput n from rfl, ihn]
      simp [cycle_count_open]
  · induction k with
    | zero => rfl
    | succ n ihn =>
      rw [watchEvents, List.range_succ, List.flatMap_append, List.count_append]
      rw [show (List.range n).flatMap (fun _ => watchCycleEvents symbols useOutput)
          = watchEvents symbols useOutput n from rfl, ihn]
      simp [cycle_count_close]
  · cases ok <;> rfl
  · cases ok <;> rfl
  · cases ok <;> rfl

theorem cycleRows_filter_count (t : ℚ) (symbols : List String) (quote : String → QuoteData)
    (s : String) (hnd : symbols.Nodup) (hs : s ∈ symbols) :
    ((cycleRows t symbols quote).filter (fun r => r.symbol == s)).length = 1 := by
  unfold cycleRows
  rw [List.filter_map, List.length_map]
  have hc : ((fun r : CsvRow => r.symbol == s) ∘ (fun x : String =>
      ({ timestamp := t, symbol := x, price := (quote x).current_price,
         volume := (quote x).volume, market_cap := (quote x).market_cap,
         fifty_day_avg := (quote x).fifty_day_average } : CsvRow))) = fun x => x == s := by
    funext x
    rfl
  rw [hc, ← List.countP_eq_length_filter]
  exact List.count_eq_one_of_mem hnd hs

/-- C7: after k cycles over distinct symbols the CSV file — rewritten
in full from the accumulator after every cycle — holds exactly k rows
per symbol, as the concatenation of the cycle blocks in cycle order;
rows of one cycle share that cycle's timestamp, and the cycle
timestamps strictly increase. -/
theorem watch_csv (t0 interval : ℚ) (delay : ℕ → ℚ) (symbols : List String)
    (quoteAt : ℕ → String → QuoteData) (k : ℕ)
    (hint : 0 < interval) (hdel : ∀ i, 0 ≤ delay i) (hnd : symbols.Nodup) :
    (∀ s ∈ symbols,
      ((watchCsvFile t0 interval delay symbols quoteAt k).filter
        (fun r => r.symbol == s)).length = k) ∧
    (∀ i j : ℕ, i < j → cycleTime t0 interval delay i < cycleTime t0 interval delay j) ∧
    (∀ i, ∀ r ∈ cycleRows (cycleTime t0 interval delay i) symbols (quoteAt i),
      r.timestamp = cycleTime t0 interval delay i) ∧
    watchCsvFile t0 interval delay symbols quoteAt k =
      (List.range k).flatMap
        (fun i => cycleRows (cycleTime t0 interval delay i) symbols (quoteAt i)) := by
  refine ⟨fun s hs => ?_, ?_, ?_, rfl⟩
  · induction k with
    | zero => rfl
    | succ n ihn =>
      rw [watchCsvFile, List.range_succ, List.flatMap_append, List.filter_append,
        List.length_append]
      rw [show (List.range n).flatMap
            (fun i => cycleRows (cycleTime t0 interval delay i) symbols (quoteAt i))
          = watchCsvFile t0 interval delay symbols quoteAt n from rfl, ihn]
      simp [cycleRows_filter_count _ _ _ _ hnd hs]
  · have hstep : ∀ i, cycleTime t0 interval delay i < cycleTime t0 interval delay (i + 1) := by
      intro i
      have := hdel i
      show cycleTime t0 interval delay i < cycleTime t0 interval delay i + delay i + interval
      linarith
    exact fun i j hij => strictMono_nat_of_lt_succ hstep hij
  · intro i r hr
    simp only [cycleRows, List.mem_map] at hr
    obtain ⟨x, _, rfl⟩ := hr
    rfl

/-- C7 witness: two cycles over "X" and "Y" at interval 5 leave exactly
two rows for "X" in the file. -/
theorem watch_csv_witness :
    (0:ℚ) < 5 ∧
    ((watchCsvFile 0 5 (fun _ => 0) ["X", "Y"] (fun _ _ => emptyQuote) 2).filter
      (fun r => r.symbol == "X")).length = 2 :=
  ⟨by decide, (watch_csv 0 5 (fun _ => 0) ["X", "Y"] (fun _ _ => emptyQuote) 2 (by decide)
      (fun _ => le_refl 0) (by decide)).1 "X" (by decide)⟩

theorem digitChar_isDigit (n : ℕ) : (digitChar n).isDigit = true := by
  unfold digitChar
  have h : n % 10 < 10 := Nat.mod_lt _ (by norm_num)
  interval_cases h2 : n % 10 <;> decide

theorem natDigitsAux_digits :
    ∀ fuel n : ℕ, ∀ c ∈ natDigitsAux fuel n, c.isDigit = true := by
  intro fuel
  induction fuel with
  | zero => intro n c hc; simp [natDigitsAux] at hc
  | succ f ih =>
    intro n c hc
    cases n with
    | zero => simp [natDigitsAux] at hc
    | succ m =>
      rw [natDigitsAux, List.mem_append] at hc
      rcases hc with hc | hc
      · exact ih _ c hc
      · simp at hc
        rw [hc]
        exact digitChar_isDigit _

theorem natDigits_digits (n : ℕ) : ∀ c ∈ natDigits n, c.isDigit = true := by
  intro c hc
  unfold natDigits at hc
  by_cases h : n = 0
  · simp [h] at hc
    rw [hc]; decide
  · rw [if_neg h] at hc
    exact natDigitsAux_digits n n c hc

theorem natDigits_ne_nil (n : ℕ) : natDigits n ≠ [] := by
  unfold natDigits
  by_cases h : n = 0
  · simp [h]
  · rw [if_neg h]
    cases n with
    | zero => exact absurd rfl h
    | succ m => rw [natDigitsAux]; simp

theorem groupChunks_flatten : ∀ l : List Char, (groupChunks l).flatten = l := by
  intro l
  induction l using groupChunks.induct <;> simp [groupChunks, *]

theorem groupChunks_mem_len :
    ∀ l : List Char, ∀ g ∈ groupChunks l, 0 < g.length ∧ g.length ≤ 3 := by
  intro l
  induction l using groupChunks.induct with
  | case1 => simp [groupChunks]
  | case2 a => simp [groupChunks]
  | case3 a b => simp [groupChunks]
  | case4 a b c rest ih =>
    intro g hg
    rw [groupChunks, List.mem_cons] at hg
    rcases hg with hg | hg
    · rw [hg]; simp
    · exact ih g hg

theorem groupChunks_dropLast_three :
    ∀ l : List Char, ∀ g ∈ (groupChunks l).dropLast, g.length = 3 := by
  intro l
  induction l using groupChunks.induct with
  | case1 => simp [groupChunks]
  | case2 a => simp [groupChunks]
  | case3 a b => simp [groupChunks]
  | case4 a b c rest ih =>
    intro g hg
    rw [groupChunks] at hg
    cases hrest : groupChunks rest with
    | nil => rw [hrest] at hg; simp at hg
    | cons g2 gs =>
      rw [hrest, List.dropLast_cons_of_ne_nil (by simp), List.mem_cons] at hg
      rcases hg with hg | hg
      · rw [hg]; rfl
      · rw [← hrest] at hg
        exact ih g hg

theorem groupChunks_ne_nil : ∀ l : List Char, l ≠ [] → groupChunks l ≠ [] := by
  intro l hl
  cases l with
  | nil => exact absurd rfl hl
  | cons a rest =>
    cases rest with
    | nil => simp [groupChunks]
    | cons b rest2 =>
      cases rest2 with
      | nil => simp [groupChunks]
      | cons c rest3 => simp [groupChunks]

theorem splitComma_no_comma : ∀ g : List Char, ',' ∉ g → splitComma g = [g] := by
  intro g
  induction g with
  | nil => intro _; rfl
  | cons c rest ih =>
    intro h
    have hc : ¬ c = ',' := fun hh => h (hh ▸ List.mem_cons_self c rest)
    have hrest : ',' ∉ rest := fun hh => h (List.mem_cons_of_mem c hh)
    rw [splitComma, if_neg hc, ih hrest]

theorem splitComma_append : ∀ g t : List Char, ',' ∉ g →
    splitComma (g ++ ',' :: t) = g :: splitComma t := by
  intro g
  induction g with
  | nil =>
    intro t _
    show splitComma (',' :: t) = [] :: splitComma t
    rw [splitComma, if_pos rfl]
  | cons c rest ih =>
    intro t h
    have hc : ¬ c = ',' := fun hh => h (hh ▸ List.mem_cons_self c rest)
    have hrest : ',' ∉ rest := fun hh => h (List.mem_cons_of_mem c hh)
    show splitComma (c :: (rest ++ ',' :: t)) = (c :: rest) :: splitComma t
    rw [splitComma, if_neg hc, ih t hrest]

theorem splitComma_joinComma : ∀ gs : List (List Char), gs ≠ [] →
    (∀ g ∈ gs, ',' ∉ g) → splitComma (joinComma gs) = gs := by
  intro gs
  induction gs with
  | nil => intro h; exact absurd rfl h
  | cons g rest ih =>
    intro _ hfree
    cases rest with
    | nil =>
      exact splitComma_no_comma g (hfree g (List.mem_cons_self g []))
    | cons g2 rest2 =>
      show splitComma (g ++ ',' :: joinComma (g2 :: rest2)) = g :: (g2 :: rest2)
      rw [splitComma_append g _ (hfree g (List.mem_cons_self g _))]
      rw [ih (by simp) (fun h hh => hfree h (List.mem_cons_of_mem g hh))]

theorem isDigit_ne_comma {c : Char} (h : c.isDigit = true) : ¬ c = ',' := by
  intro hc
  rw [hc] at h
  exact absurd h (by decide)

theorem isGroupedInt_of_groups (gs : List (List Char)) (hne : gs ≠ [])
    (hall : ∀ g ∈ gs, 0 < g.length ∧ g.length ≤ 3 ∧ ∀ c ∈ g, c.isDigit = true)
    (htail : ∀ g ∈ gs.tail, g.length = 3) :
    isGroupedInt (joinComma gs) = true := by
  have hfree : ∀ g ∈ gs, ',' ∉ g := by
    intro g hg hc
    exact isDigit_ne_comma ((hall g hg).2.2 ',' hc) rfl
  unfold isGroupedInt
  rw [splitComma_joinComma gs hne hfree]
  cases gs with
  | nil => exact absurd rfl hne
  | cons g0 rest =>
    obtain ⟨h1, h2, h3⟩ := hall g0 (List.mem_cons_self g0 rest)
    have hd : isDigitList g0 = true := by
      unfold isDigitList
      rw [Bool.and_eq_true]
      constructor
      · cases g0 with
        | nil => simp at h1
        | cons x xs => rfl
      · rw [List.all_eq_true]
        intro c hc
        exact h3 c hc
    simp only [hd, Bool.true_and, Bool.and_eq_true, decide_eq_true_eq]
    refine ⟨h2, ?_⟩
    rw [List.all_eq_true]
    intro g hg
    have hg3 : g.length = 3 := htail g hg
    obtain ⟨_, _, hdig⟩ := hall g (List.mem_cons_of_mem g0 hg)
    rw [Bool.and_eq_true, decide_eq_true_eq, List.all_eq_true]
    exact ⟨hg3, fun c hc => hdig c hc⟩

theorem groupDigits_grouped (ds : List Char) (hne : ds ≠ [])
    (hdig : ∀ c ∈ ds, c.isDigit = true) :
    isGroupedInt (groupDigits ds) = true := by
  unfold groupDigits
  set gs := ((groupChunks ds.reverse).reverse).map List.reverse with hgs
  have hmem : ∀ g ∈ gs, 0 < g.length ∧ g.length ≤ 3 ∧ ∀ c ∈ g, c.isDigit = true := by
    intro g hg
    rw [hgs, List.mem_map] at hg
    obtain ⟨h, hh, rfl⟩ := hg
    rw [List.mem_reverse] at hh
    obtain ⟨hl, hr⟩ := groupChunks_mem_len ds.reverse h hh
    refine ⟨by simpa using hl, by simpa using hr, ?_⟩
    intro c hc
    rw [List.mem_reverse] at hc
    have hcds : c ∈ ds.reverse := by
      rw [← groupChunks_flatten ds.reverse]
      exact List.mem_flatten.mpr ⟨h, hh, hc⟩
    exact hdig c (List.mem_reverse.mp hcds)
  have hne2 : gs ≠ [] := by
    rw [hgs]
    intro hh
    apply groupChunks_ne_nil ds.reverse (by simpa using hne)
    simpa using hh
  apply isGroupedInt_of_groups gs hne2 hmem
  intro g hg
  have hchunks := groupChunks_ne_nil ds.reverse (by simpa using hne)
  obtain ⟨init, lastg, hdecomp⟩ :
      ∃ init lastg, groupChunks ds.reverse = init ++ [lastg] := by
    rcases (groupChunks ds.reverse).eq_nil_or_concat with h | ⟨init, lastg, h⟩
    · exact absurd h hchunks
    · exact ⟨init, lastg, by simpa using h⟩
  rw [hgs, hdecomp] at hg
  simp only [List.reverse_append, List.reverse_cons, List.reverse_nil, List.nil_append,
    List.map_append, List.map_cons, List.map_nil, List.singleton_append, List.tail_cons] at hg
  rw [List.mem_map] at hg
  obtain ⟨h, hh, rfl⟩ := hg
  rw [List.mem_reverse] at hh
  have hdl : h ∈ (groupChunks ds.reverse).dropLast := by
    rw [hdecomp, List.dropLast_concat]
    exact hh
  have h3 := groupChunks_dropLast_three ds.reverse h hdl
  simpa using h3

theorem isCurrencyPattern_of_data (s : String) (ip : List Char) (d1 d2 : Char)
    (hdata : s.data = '$' :: (ip ++ '.' :: [d1, d2]))
    (hip : isGroupedInt ip = true) (h1 : d1.isDigit = true) (h2 : d2.isDigit = true) :
    isCurrencyPattern s = true := by
  simp [isCurrencyPattern, hdata, List.reverse_append, h1, h2, List.reverse_reverse, hip]

/-- C5 counterexample: a present numeric value 0 renders as "N/A", not
as a dollar-prefixed two-decimal string, for both currency cells and
volume cells. -/
theorem cell_formatting_patterns_counterexample :
    format_currency (some 0) = "N/A" ∧ isCurrencyPattern "N/A" = false ∧
    volumeCell (some 0) = "N/A" :=
  ⟨by decide, by decide, by decide⟩

/-- C5 amended: absent fields and present-but-zero values render as the
literal "N/A"; every present positive currency value renders as
`$<grouped-int>.<2 decimals>`; every present positive volume renders as
a thousands-grouped integer; and the watch table builds its cells with
exactly these formatters. -/
theorem cell_formatting_patterns :
    format_currency none = "N/A" ∧
    volumeCell none = "N/A" ∧
    format_currency (some 0) = "N/A" ∧
    (∀ x : ℚ, 0 < x → isCurrencyPattern (format_currency (some x)) = true) ∧
    (∀ n : ℤ, 0 < n → isGroupedInt (volumeCell (some n)).data = true) ∧
    (∀ rs : List StockResponse,
      (create_stock_table rs).map TableRow.current_price
        = rs.map fun r => format_currency r.data.current_price) := by
  refine ⟨rfl, rfl, by decide, ?_, ?_, ?_⟩
  · intro x hx
    have hne : x ≠ 0 := ne_of_gt hx
    have ht : pyTruthy (some x) = true := by simp [pyTruthy, bne_iff_ne, hne]
    simp only [format_currency, ht, if_true, Option.getD_some, commaFixed2]
    rw [if_neg (not_lt.mpr hx.le)]
    apply isCurrencyPattern_of_data _
      (groupDigits (natDigits (roundHalfEven (|x| * 100) / 100)))
      (digitChar (roundHalfEven (|x| * 100) % 100 / 10))
      (digitChar (roundHalfEven (|x| * 100) % 100 % 10))
    · simp [String.data_append]
    · exact groupDigits_grouped _ (natDigits_ne_nil _) (natDigits_digits _)
    · exact digitChar_isDigit _
    · exact digitChar_isDigit _
  · intro n hn
    have hne : n ≠ 0 := ne_of_gt hn
    have ht : pyTruthyInt (some n) = true := by simp [pyTruthyInt, bne_iff_ne, hne]
    simp only [volumeCell, ht, if_true, Option.getD_some, commaInt]
    rw [if_neg (not_lt.mpr hn.le)]
    have hdata : (("" : String) ++ String.mk (groupDigits (natDigits n.natAbs))).data
        = groupDigits (natDigits n.natAbs) := by simp [String.data_append]
    rw [hdata]
    exact groupDigits_grouped _ (natDigits_ne_nil _) (natDigits_digits _)
  · intro rs
    simp [create_stock_table, List.map_map, Function.comp]

/-- C5 witness: 1234.5 renders as "$1,234.50" matching the pattern, and
volume 1000000 renders thousands-grouped. -/
theorem cell_formatting_patterns_witness :
    isCurrencyPattern (format_currency (some (1234.5:ℚ))) = true ∧
    isGroupedInt (volumeCell (some (1000000:ℤ))).data = true ∧
    format_currency (some (1234.5:ℚ)) = "$1,234.50" :=
  ⟨cell_formatting_patterns.2.2.2.1 1234.5 (by decide),
   cell_formatting_patterns.2.2.2.2.1 1000000 (by decide),
   by decide⟩

/-- C9: two analyze invocations on the same symbol differing only in
the --days option issue the same quote request and produce the same
output — the days input never influences either. -/
theorem days_noninterference (serv : String → Except String StockResponse)
    (symbol : String) (d1 d2 : ℕ) :
    analyze_run serv symbol d1 = analyze_run serv symbol d2 ∧
    analyze_requests symbol d1 = analyze_requests symbol d2 :=
  ⟨rfl, rfl⟩

/-- C4 amended: the derived-metric row appears exactly when both
current price and 50-day average are truthy (present and non-zero, the
code's guard), not merely known; when they are and the average is
positive, the row shows the up indicator exactly when current price
exceeds the average, with the absolute percentage deviation to two
decimals; when either value is falsy the derived row is omitted while
the three raw rows still render. -/
theorem analyze_derived_metric_row (data : QuoteData) :
    (pyTruthy data.current_price = false ∨ pyTruthy data.fifty_day_average = false →
      (analyze_table data).map Prod.fst = ["Current Price", "50 Day Average", "Market Cap"]) ∧
    (∀ cp fda : ℚ, data.current_price = some cp → data.fifty_day_average = some fda →
      cp ≠ 0 → 0 < fda →
      analyze_table data =
        ("Price vs 50-day Average",
          (if fda < cp then "🔺" else "🔻") ++ " " ++ fixed2 |(cp - fda) / fda * 100| ++ "%")
        :: [("Current Price", format_currency (some cp)),
            ("50 Day Average", format_currency (some fda)),
            ("Market Cap", format_currency data.market_cap)]) := by
  constructor
  · intro h
    have hfalse : (pyTruthy data.current_price && pyTruthy data.fifty_day_average) = false := by
      rcases h with h | h <;> simp [h]
    simp [analyze_table, hfalse]
  · intro cp fda hcp hfda hcp0 hfda0
    have hguard : (pyTruthy (some cp) && pyTruthy (some fda)) = true := by
      simp [pyTruthy_some_iff, hcp0, ne_of_gt hfda0]
    simp only [analyze_table, hcp, hfda, Option.getD_some, hguard, if_true]
    rw [if_congr (price_diff_pos_iff cp fda hfda0) rfl rfl]
    rfl

/-- C4 counterexample: a present-but-zero current price (a known value)
suppresses the derived row, and a negative 50-day average shows the
down indicator although the current price exceeds the average — "known"
does not imply the row appears as claimed. -/
theorem analyze_derived_metric_row_counterexample :
    (quoteZeroPrice.current_price = some 0 ∧ quoteZeroPrice.fifty_day_average = some 100 ∧
      (analyze_table quoteZeroPrice).map Prod.fst
        = ["Current Price", "50 Day Average", "Market Cap"]) ∧
    (quoteNegAvg.current_price = some 50 ∧ quoteNegAvg.fifty_day_average = some (-100) ∧
      quoteNegAvg.fifty_day_average.getD 0 < quoteNegAvg.current_price.getD 0 ∧
      (analyze_table quoteNegAvg).headI = ("Price vs 50-day Average", "🔻 150.00%")) :=
  ⟨⟨rfl, rfl, by decide⟩, ⟨rfl, rfl, by decide, by decide⟩⟩

/-- C4 witness: the spec scenario current_price=110,
fifty_day_average=100 renders the up indicator with "10.00%". -/
theorem analyze_derived_metric_row_witness :
    analyze_table quote110 =
      [("Price vs 50-day Average", "🔺 10.00%"), ("Current Price", "$110.00"),
       ("50 Day Average", "$100.00"), ("Market Cap", "N/A")] := by
  have h := (analyze_derived_metric_row quote110).2 110 100 rfl rfl (by decide) (by decide)
  rw [h]
  decide

/-- C10: for every quote, either the derived-metric row is skipped
(only the three raw rows render) or the divisor fifty_day_average is
non-zero — the division by fifty_day_average is unreachable at zero. -/
theorem division_guard (data : QuoteData) :
    (analyze_table data).map Prod.fst = ["Current Price", "50 Day Average", "Market Cap"] ∨
    (data.fifty_day_average.getD 0 ≠ 0 ∧
      (analyze_table data).map Prod.fst =
        ["Price vs 50-day Average", "Current Price", "50 Day Average", "Market Cap"]) := by
  by_cases h : (pyTruthy data.current_price && pyTruthy data.fifty_day_average) = true
  · right
    refine ⟨pyTruthy_getD_ne_zero (Bool.and_elim_right h), ?_⟩
    simp [analyze_table, h]
  · left
    simp [analyze_table, Bool.not_eq_true _ ▸ h]

end StockApp
